import Mathlib

/-!
Verification development for the Deep-Research-Assistant retrieval core:
the chunker (`src/services/embeddings.py`), the FAISS-backed vector store
(`src/services/vector_store.py`) and the context assembler
(`src/services/gemini_client.py`).  Python text is modelled as `List Char`,
Python integers as `Int` (with Python floor-division and slice semantics),
and embedding-vector components as `ℚ`.  The possibly-diverging chunking
`while` loop is given fuel semantics: `none` means the fuel ran out before
the loop finished, `some (Except.error ())` models an uncaught Python
`IndexError`, and `some (Except.ok r)` a normal return of `r`.
-/

namespace DeepResearch

/-! ### Python slice / indexing semantics over `List Char` -/

/-- A Python index normalised: negative indices count from the end. -/
def pyNormIdx (n : Int) (i : Int) : Int := if i < 0 then i + n else i

/-- Clamp a normalised slice bound into `[0, n]`, as Python slicing does. -/
def pyClamp (n : Int) (i : Int) : Int := max 0 (min i n)

/-- Models the Python slice `l[a:b]` (step 1). -/
def pySlice (l : List Char) (a b : Int) : List Char :=
  let n : Int := l.length
  let a2 := pyClamp n (pyNormIdx n a)
  let b2 := pyClamp n (pyNormIdx n b)
  (l.take b2.toNat).drop a2.toNat

/-- Models the Python element access `l[i]`: negative indices count from
the end, out-of-range access raises (`Except.error`). -/
def pyGet (l : List Char) (i : Int) : Except Unit Char :=
  let n : Int := l.length
  let j := if i < 0 then i + n else i
  if 0 ≤ j ∧ j < n then Except.ok (l.getD j.toNat ' ') else Except.error ()

/-- Python `str.strip()`: drop leading and trailing whitespace. -/
def strip (l : List Char) : List Char :=
  List.rdropWhile Char.isWhitespace (List.dropWhile Char.isWhitespace l)

/-! ### The chunker (`EmbeddingService.chunk_text`)

The Python body: return `[text]` when `len(text) <= chunk_size`; else loop
`while start < len(text)`: set `end = start + chunk_size`; when
`end < len(text)`, scan `i` over `range(end, max(start + chunk_size // 2,
end - 100), -1)` and, at the first `i` whose `text[i]` is a sentence
terminal (period, exclamation or question mark), set `end = i + 1`; append
`text[start:end].strip()` when non-empty; set `start = end - overlap`;
break when `start >= len(text)`.  There is no validation of `chunk_size`
or `overlap` anywhere. -/

/-- The backward sentence-boundary scan: `i` starts at `end` and steps by
-1 while above the stop bound; `count` is the iteration count
`max (end - stop) 0` of that Python `range`.  Returns `some (i + 1)` for
the first `i` whose character is a sentence terminal. -/
def pyCharScanAux (text : List Char) : Nat → Int → Except Unit (Option Int)
  | 0, _ => Except.ok none
  | count + 1, i =>
    match pyGet text i with
    | Except.error _ => Except.error ()
    | Except.ok c =>
      if c = '.' ∨ c = '!' ∨ c = '?' then Except.ok (some (i + 1))
      else pyCharScanAux text count (i - 1)

/-- The per-iteration computation of `end`: `start + chunk_size`, moved to
just after the nearest sentence terminal found by the backward scan (which
runs only when `end` lies strictly inside the text). -/
def scanEnd (text : List Char) (cs : Int) (start : Int) : Except Unit Int :=
  if start + cs < (text.length : Int) then
    match pyCharScanAux text
        (start + cs - max (start + cs.fdiv 2) (start + cs - 100)).toNat
        (start + cs) with
    | Except.error _ => Except.error ()
    | Except.ok none => Except.ok (start + cs)
    | Except.ok (some j) => Except.ok j
  else Except.ok (start + cs)

/-- Append a chunk to the accumulator unless it is empty
(`if chunk: chunks.append(chunk)`). -/
def appendChunk (acc : List (List Char)) (ch : List Char) :
    List (List Char) :=
  if ch = [] then acc else acc ++ [ch]

/-- One-step-at-a-time fuel semantics of the chunking `while` loop. -/
def chunkLoop (text : List Char) (cs ov : Int) :
    Nat → Int → List (List Char) → Option (Except Unit (List (List Char)))
  | 0, _, _ => none
  | fuel + 1, start, acc =>
    if start < (text.length : Int) then
      match scanEnd text cs start with
      | Except.error _ => some (Except.error ())
      | Except.ok endB =>
        if (text.length : Int) ≤ endB - ov then
          some (Except.ok (appendChunk acc (strip (pySlice text start endB))))
        else
          chunkLoop text cs ov fuel (endB - ov)
            (appendChunk acc (strip (pySlice text start endB)))
    else some (Except.ok acc)

/-- Run of `chunk_text(text, chunk_size, overlap)` under fuel semantics. -/
def chunkText (fuel : Nat) (text : List Char) (cs ov : Int) :
    Option (Except Unit (List (List Char))) :=
  if (text.length : Int) ≤ cs then some (Except.ok [text])
  else chunkLoop text cs ov fuel 0 []

/-! ### The vector store (`VectorStore` in `src/services/vector_store.py`) -/

/-- A stored document-chunk record (the fields the core reads). -/
structure Doc where
  content : String
  title : String
  url : String
deriving DecidableEq

instance : Inhabited Doc := ⟨⟨"", "", ""⟩⟩

/-- The FAISS `IndexFlatL2`: its dimension and its stored rows, modelled
as exact rationals (the external library is trusted to store what it is
given). -/
structure FaissIndex where
  dim : Nat
  rows : List (List ℚ)
deriving DecidableEq

/-- The `VectorStore` object state: `self.index`, `self.documents`,
`self.dimension`. -/
structure VectorStore where
  index : Option FaissIndex
  documents : List Doc
  dimension : Option Nat
deriving DecidableEq

/-- `VectorStore.__init__`. -/
def initStore : VectorStore := ⟨none, [], none⟩

/-- Models `create_index`: rejects an empty batch (`len(embeddings) == 0`) with a
`False` return and no mutation; otherwise adopts the batch dimension
(`embeddings.shape[1]`, the common row length), builds a fresh FAISS index
holding the batch, and replaces the document list. -/
def createIndex (s : VectorStore) (vecs : List (List ℚ)) (docs : List Doc) :
    VectorStore × Bool :=
  if vecs.length = 0 then (s, false)
  else
    let d := (vecs.headD []).length
    (⟨some ⟨d, vecs⟩, docs, some d⟩, true)

/-- Models `add_documents`: delegates to `create_index` when no index exists yet;
otherwise appends the vectors to the FAISS index and extends the document
list.  FAISS raises when a row's dimension disagrees with the index's
(caught by the `except`, returning `False` with no mutation); no check
whatsoever relates `len(vectors)` to `len(documents)`. -/
def addDocuments (s : VectorStore) (vecs : List (List ℚ)) (docs : List Doc) :
    VectorStore × Bool :=
  match s.index with
  | none => createIndex s vecs docs
  | some ix =>
    if vecs.all (fun v => v.length == ix.dim) then
      (⟨some ⟨ix.dim, ix.rows ++ vecs⟩, s.documents ++ docs, s.dimension⟩, true)
    else (s, false)

/-- Squared Euclidean (L2) distance, as computed by `IndexFlatL2`. -/
def sqDist (q v : List ℚ) : ℚ :=
  ((q.zip v).map (fun p => (p.1 - p.2) ^ 2)).sum

/-- The score transform `1 / (1 + distance)` (line 106 of `vector_store.py`). -/
def similarity (d : ℚ) : ℚ := 1 / (1 + d)

/-- FAISS result order: ascending distance, ties by insertion index. -/
def distLe (a b : Nat × ℚ) : Prop := a.2 < b.2 ∨ (a.2 = b.2 ∧ a.1 ≤ b.1)

instance : DecidableRel distLe := fun a b => by
  unfold distLe
  infer_instance

/-- Pair every row with its ordinal position, starting at `i`. -/
def idxFrom (i : Nat) : List (List ℚ) → List (Nat × List ℚ)
  | [] => []
  | v :: vs => (i, v) :: idxFrom (i + 1) vs

/-- All `(row index, squared distance to q)` pairs of the brute-force scan. -/
def distPairs (q : List ℚ) (rows : List (List ℚ)) : List (Nat × ℚ) :=
  (idxFrom 0 rows).map (fun p => (p.1, sqDist q p.2))

/-- Models `search(query_embedding, top_k)`: returns `[]` when the index is absent
or the document list is empty (the code prints a warning and returns the
plain empty list); a query of the wrong dimension makes FAISS raise, which
the `except` turns into `[]` as well.  Otherwise the `min(top_k, len(docs))`
nearest rows are returned, each paired with `similarity` of its distance,
keeping only rows whose index is a valid document position. -/
def searchVS (s : VectorStore) (q : List ℚ) (k : Nat) : List (Doc × ℚ) :=
  match s.index with
  | none => []
  | some ix =>
    if s.documents.length = 0 then []
    else if q.length ≠ ix.dim then []
    else
      let sorted := List.insertionSort distLe (distPairs q ix.rows)
      (sorted.take (min k s.documents.length)).filterMap
        (fun p =>
          if h : p.1 < s.documents.length then
            some (s.documents.get ⟨p.1, h⟩, similarity p.2)
          else none)

/-- The rows held by the store's index (empty when unbound). -/
def rowsOf (s : VectorStore) : List (List ℚ) :=
  match s.index with
  | some ix => ix.rows
  | none => []

/-- The record returned by `get_stats`. -/
structure IndexStats where
  num_documents : Nat
  dimension : Option Nat
  has_index : Bool
  index_size : Nat
deriving DecidableEq

def getStats (s : VectorStore) : IndexStats :=
  ⟨s.documents.length, s.dimension, s.index.isSome,
    match s.index with
    | some ix => ix.rows.length
    | none => 0⟩

/-- The session-state payload stored under the key vector_store_data: the
serialized FAISS index bytes (modelled by the index they encode,
`faiss.write_index` and `faiss.read_index` being the trusted external
round-trip), the document list and the dimension. -/
structure SessionData where
  indexBytes : FaissIndex
  documents : List Doc
  dimension : Option Nat
deriving DecidableEq

/-- Models `save_to_session_state`: writes the snapshot only when an index exists,
otherwise the previous session content stays. -/
def saveToSessionState (s : VectorStore) (sess : Option SessionData) :
    Option SessionData :=
  match s.index with
  | some ix => some ⟨ix, s.documents, s.dimension⟩
  | none => sess

/-- Models `load_from_session_state`: restores all three fields when a snapshot is
present, returning `true`; otherwise leaves the store alone and returns
`false`. -/
def loadFromSessionState (s : VectorStore) (sess : Option SessionData) :
    VectorStore × Bool :=
  match sess with
  | some d => (⟨some d.indexBytes, d.documents, d.dimension⟩, true)
  | none => (s, false)

/-- Models `clear`: reset the store and delete the session snapshot. -/
def clearStore (_s : VectorStore) (_sess : Option SessionData) :
    VectorStore × Option SessionData :=
  (initStore, none)

/-! ### The retrieval assembler
(`GeminiClient.answer_question_with_context`, context-building loop) -/

/-- The per-document context block the code builds: the text
Source: <title>, then a parenthesised <url> only when the url is non-empty
(Python truthiness), then a newline, Content: <content>, and a final
newline.  (The `doc.get` defaults apply only to records missing a key;
chunk records always carry all three fields.) -/
def formatDoc (d : Doc) : String :=
  let base := "Source: " ++ d.title
  let base2 := if d.url ≠ "" then base ++ " (" ++ d.url ++ ")" else base
  base2 ++ "\nContent: " ++ d.content ++ "\n"

/-- The format the specification text prescribes, for comparison:
Source: <title> (<url>), newline, Content: <content>, newline — with the
parenthesised url present unconditionally. -/
def specFormatDoc (d : Doc) : String :=
  "Source: " ++ d.title ++ " (" ++ d.url ++ ")" ++ "\nContent: " ++
    d.content ++ "\n"

/-- The greedy accumulation loop: starting from accumulated length `cur`,
keep a document's block only when it does not push the total past
`maxChars`; stop at the first block that would. -/
def buildContextParts (docs : List Doc) (maxChars : Int) (cur : Nat) :
    List String :=
  match docs with
  | [] => []
  | d :: rest =>
    if (cur : Int) + ((formatDoc d).length : Int) > maxChars then []
    else
      formatDoc d :: buildContextParts rest maxChars (cur + (formatDoc d).length)

/-- Total length of a list of strings. -/
def sumLen (l : List String) : Nat := (l.map String.length).sum

/-! ### Concrete fixtures used in the examples below -/

def docA : Doc := ⟨"Alpha content", "Alpha", "http://a"⟩

def docB : Doc := ⟨"Beta content", "Beta", "http://b"⟩

def docC : Doc := ⟨"Gamma content", "Gamma", "http://c"⟩

/-- A document whose url is the empty string (Python-falsy). -/
def docU : Doc := ⟨"c", "t", ""⟩

def skyDoc : Doc := ⟨"The sky is blue.", "sky", "http://sky"⟩

def waterDoc : Doc := ⟨"Water is wet.", "water", "http://water"⟩

/-- The two-chunk store of the concrete scenario in the spec. -/
def storeS : VectorStore :=
  ⟨some ⟨2, [[1, 0], [0, 1]]⟩, [skyDoc, waterDoc], some 2⟩

/-- A bound one-document store. -/
def storeC : VectorStore := ⟨some ⟨2, [[0, 0]]⟩, [docC], some 2⟩

/-- A bound one-document store of dimension one. -/
def store1 : VectorStore := ⟨some ⟨1, [[1]]⟩, [docC], some 1⟩

/-- Four letters with no sentence terminal. -/
def fourAs : List Char := ['a', 'a', 'a', 'a']

/-! ### Helper lemmas about stripping and slicing -/

lemma strip_length_le (l : List Char) : (strip l).length ≤ l.length :=
  le_trans (List.rdropWhile_prefix _ _).length_le
    (List.dropWhile_suffix _).length_le

lemma dropWhile_strip (l : List Char) :
    List.dropWhile Char.isWhitespace (strip l) = strip l := by
  unfold strip
  obtain ⟨t, ht⟩ :=
    List.rdropWhile_prefix Char.isWhitespace
      (List.dropWhile Char.isWhitespace l)
  have hx := List.dropWhile_idempotent Char.isWhitespace l
  cases hrd : List.rdropWhile Char.isWhitespace
      (List.dropWhile Char.isWhitespace l) with
  | nil => simp
  | cons c t2 =>
    rw [hrd] at ht
    have hceq : List.dropWhile Char.isWhitespace l = c :: (t2 ++ t) := by
      rw [← ht]; simp
    rw [hceq, List.dropWhile_cons] at hx
    by_cases hpc : Char.isWhitespace c
    · rw [if_pos hpc] at hx
      have hle := (List.dropWhile_suffix (l := t2 ++ t)
        Char.isWhitespace).length_le
      have hcon : (t2 ++ t).length + 1 ≤ (t2 ++ t).length := by
        calc (t2 ++ t).length + 1 = (c :: (t2 ++ t)).length := by simp
          _ = (List.dropWhile Char.isWhitespace (t2 ++ t)).length := by
              rw [hx]
          _ ≤ (t2 ++ t).length := hle
      omega
    · rw [List.dropWhile_cons, if_neg hpc]

lemma strip_idem (l : List Char) : strip (strip l) = strip l := by
  have h1 : strip (strip l) =
      List.rdropWhile Char.isWhitespace
        (List.dropWhile Char.isWhitespace (strip l)) := rfl
  rw [h1, dropWhile_strip]
  have h2 : strip l =
      List.rdropWhile Char.isWhitespace
        (List.dropWhile Char.isWhitespace l) := rfl
  rw [h2, List.rdropWhile_idempotent]

lemma pySlice_length_le (l : List Char) (a b : Int) (hab : a ≤ b) :
    ((pySlice l a b).length : Int) ≤ b - a := by
  simp only [pySlice, pyClamp, pyNormIdx, List.length_drop,
    List.length_take]
  have hn : (0 : Int) ≤ (l.length : Int) := by positivity
  rcases le_or_lt a 0 with _ | _ <;>
    simp only [max_def, min_def] <;> split_ifs <;> omega

lemma pyCharScanAux_some_bound (text : List Char) :
    ∀ (c : Nat) (i e : Int),
      pyCharScanAux text c i = Except.ok (some e) →
      i - c + 2 ≤ e ∧ e ≤ i + 1 := by
  intro c
  induction c with
  | zero =>
    intro i e h
    simp [pyCharScanAux] at h
  | succ n ih =>
    intro i e h
    rw [pyCharScanAux] at h
    split at h
    · cases h
    · split at h
      · have he : e = i + 1 := by cases h; rfl
        omega
      · have := ih (i - 1) e h
        omega

lemma scanEnd_bound (text : List Char) (cs start e : Int)
    (h : scanEnd text cs start = Except.ok e) :
    e ≤ start + cs + 1 ∧
      (e = start + cs ∨
        max (start + cs.fdiv 2) (start + cs - 100) + 2 ≤ e) := by
  unfold scanEnd at h
  split at h
  · split at h
    · cases h
    · have he : e = start + cs := by cases h; rfl
      omega
    · rename_i j hs
      have he : e = j := by cases h; rfl
      have hb := pyCharScanAux_some_bound text _ _ _ hs
      subst he
      constructor
      · omega
      · right
        omega
  · have he : e = start + cs := by cases h; rfl
    omega

lemma appendChunk_invar (P : List Char → Prop) (acc : List (List Char))
    (ch : List Char) (hacc : ∀ c ∈ acc, P c) (hch : ch ≠ [] → P ch) :
    ∀ c ∈ appendChunk acc ch, P c := by
  intro c hc
  unfold appendChunk at hc
  by_cases h : ch = []
  · rw [if_pos h] at hc; exact hacc c hc
  · rw [if_neg h] at hc
    rcases List.mem_append.mp hc with h2 | h2
    · exact hacc c h2
    · rcases List.mem_singleton.mp h2 with rfl
      exact hch h

/-- The central loop invariant: any property that holds of every possible
freshly appended (non-empty, stripped) chunk, given the bounds `scanEnd`
guarantees, carries from the accumulator to a normally returned result. -/
lemma chunkLoop_invar (text : List Char) (cs ov : Int)
    (P : List Char → Prop)
    (hnew : ∀ s2 e2 : Int,
      e2 ≤ s2 + cs + 1 →
      (e2 = s2 + cs ∨ max (s2 + cs.fdiv 2) (s2 + cs - 100) + 2 ≤ e2) →
      strip (pySlice text s2 e2) ≠ [] →
      P (strip (pySlice text s2 e2))) :
    ∀ (fuel : Nat) (start : Int) (acc res : List (List Char)),
      (∀ c ∈ acc, P c) →
      chunkLoop text cs ov fuel start acc = some (Except.ok res) →
      ∀ c ∈ res, P c := by
  intro fuel
  induction fuel with
  | zero =>
    intro start acc res _ h
    cases h
  | succ n ih =>
    intro start acc res hacc h
    rw [chunkLoop] at h
    split at h
    · split at h
      · cases h
      · rename_i endB hs
        obtain ⟨hb1, hb2⟩ := scanEnd_bound text cs start endB hs
        have hP : ∀ c ∈ appendChunk acc (strip (pySlice text start endB)),
            P c :=
          appendChunk_invar P acc _ hacc (hnew start endB hb1 hb2)
        split at h
        · have hres : appendChunk acc (strip (pySlice text start endB)) =
              res := by
            cases h; rfl
          rw [← hres]
          exact hP
        · exact ih (endB - ov) _ res hP h
    · have hres : acc = res := by cases h; rfl
      rw [← hres]
      exact hacc

lemma idxFrom_snd_mem :
    ∀ (j : Nat) (rows : List (List ℚ)) (i : Nat) (v : List ℚ),
      (i, v) ∈ idxFrom j rows → v ∈ rows := by
  intro j rows
  induction rows generalizing j with
  | nil =>
    intro i v h
    cases h
  | cons r rs ih =>
    intro i v h
    rw [idxFrom] at h
    rcases List.mem_cons.mp h with h1 | h1
    · rw [Prod.mk.injEq] at h1
      rw [h1.2]
      exact List.mem_cons_self r rs
    · exact List.mem_cons_of_mem r (ih (j + 1) i v h1)

/-- One non-advancing iteration of the chunk loop on `fourAs` with
`chunk_size = overlap = 2`: the window start stays at 0 forever. -/
lemma chunkLoop_fourAs_step (n : Nat) (acc : List (List Char)) :
    chunkLoop fourAs 2 2 (n + 1) 0 acc =
      chunkLoop fourAs 2 2 n 0 (acc ++ [['a', 'a']]) := rfl

/-- With `chunk_size = 0` and `overlap = 0` on a non-empty text the loop
makes no progress at all: one step keeps both the start offset and the
accumulator unchanged. -/
lemma chunkLoop_zero_step (text : List Char) (hne : text ≠ [])
    (n : Nat) (acc : List (List Char)) :
    chunkLoop text 0 0 (n + 1) 0 acc = chunkLoop text 0 0 n 0 acc := by
  have hlen : (0 : Int) < (text.length : Int) := by
    have h0 : 0 < text.length := List.length_pos.mpr hne
    exact_mod_cast h0
  have hscan : scanEnd text 0 0 = Except.ok 0 := by
    unfold scanEnd
    rw [if_pos (show (0 : Int) + 0 < (text.length : Int) by simpa using hlen)]
    rfl
  have hc : pyClamp (text.length : Int) (pyNormIdx (text.length : Int) 0) =
      0 := by
    unfold pyClamp pyNormIdx
    simp
  have hsl : pySlice text 0 0 = [] := by
    simp only [pySlice]
    rw [hc]
    simp
  rw [chunkLoop, if_pos hlen]
  simp only [hscan]
  rw [hsl]
  rw [if_neg (show ¬ ((text.length : Int) ≤ 0 - 0) by omega)]
  norm_num
  rfl

/-- The greedy characterisation of the context-building loop, for an
arbitrary starting accumulated length. -/
lemma buildContextParts_spec (docs : List Doc) :
    ∀ (maxC : Int) (cur : Nat),
      ∃ n,
        buildContextParts docs maxC cur = (docs.take n).map formatDoc ∧
        (cur : Int) + (sumLen (buildContextParts docs maxC cur) : Int) ≤
          max maxC (cur : Int) ∧
        n ≤ docs.length ∧
        (n < docs.length →
          (cur : Int) + (sumLen (buildContextParts docs maxC cur) : Int) +
            ((formatDoc (docs.getD n default)).length : Int) > maxC) := by
  induction docs with
  | nil =>
    intro maxC cur
    refine ⟨0, rfl, ?_, by simp, by simp⟩
    simp only [buildContextParts, sumLen, List.map_nil, List.sum_nil]
    simp
  | cons d rest ih =>
    intro maxC cur
    by_cases hgt : (cur : Int) + ((formatDoc d).length : Int) > maxC
    · refine ⟨0, ?_, ?_, by simp, ?_⟩
      · rw [buildContextParts, if_pos hgt]
        simp
      · rw [buildContextParts, if_pos hgt]
        simp only [sumLen, List.map_nil, List.sum_nil]
        simp
      · intro _
        rw [buildContextParts, if_pos hgt]
        simpa [sumLen] using hgt
    · obtain ⟨n, he, hb, hn, hs⟩ := ih maxC (cur + (formatDoc d).length)
      refine ⟨n + 1, ?_, ?_, by simpa using hn, ?_⟩
      · rw [buildContextParts, if_neg hgt, he, List.take_succ_cons,
          List.map_cons]
      · rw [buildContextParts, if_neg hgt]
        simp only [sumLen, List.map_cons, List.sum_cons] at hb ⊢
        push_cast at hb ⊢
        omega
      · intro hlt
        have hlt2 : n < rest.length := by simpa using hlt
        have hstop := hs hlt2
        rw [buildContextParts, if_neg hgt]
        simp only [List.getD_cons_succ] at *
        simp only [sumLen, List.map_cons, List.sum_cons] at hstop ⊢
        push_cast at hstop ⊢
        omega

/-! ### The claims -/

/-- C1: restoring from a snapshot of a non-empty index yields an index
whose stats result and whose search results for every query and every k
are identical to the originals.  (The restored state is field-by-field
the saved state; the FAISS byte round-trip is the trusted external
serializer.) -/
theorem snapshot_roundtrip (s s0 : VectorStore) (sess0 : Option SessionData)
    (ix : FaissIndex) (hix : s.index = some ix) (hne : s.documents ≠ []) :
    getStats (loadFromSessionState s0 (saveToSessionState s sess0)).1 =
      getStats s ∧
    ∀ (q : List ℚ) (k : Nat),
      searchVS (loadFromSessionState s0 (saveToSessionState s sess0)).1 q k =
        searchVS s q k := by
  obtain ⟨oix, docs, dim⟩ := s
  have hix2 : oix = some ix := hix
  subst hix2
  exact ⟨rfl, fun q k => rfl⟩

/-- Witness for C1 at the concrete two-chunk store. -/
theorem snapshot_roundtrip_check :
    getStats (loadFromSessionState initStore
        (saveToSessionState storeS none)).1 = getStats storeS ∧
    ∀ (q : List ℚ) (k : Nat),
      searchVS (loadFromSessionState initStore
          (saveToSessionState storeS none)).1 q k = searchVS storeS q k :=
  snapshot_roundtrip storeS initStore none ⟨2, [[1, 0], [0, 1]]⟩ rfl
    (by decide)

/-- C2: the code bug behind the termination claim.  With
`overlap = chunk_size = 2` on the four-letter text, the loop never
advances: for every fuel bound the run is still unfinished, i.e. the
Python loop runs forever.  No clamping of `overlap` exists in the code. -/
theorem chunkText_no_overlap_clamp (fuel : Nat) :
    chunkText fuel fourAs 2 2 = none := by
  have hloop : ∀ (n : Nat) (acc : List (List Char)),
      chunkLoop fourAs 2 2 n 0 acc = none := by
    intro n
    induction n with
    | zero => intro acc; rfl
    | succ m ih =>
      intro acc
      rw [chunkLoop_fourAs_step]
      exact ih _
  have h4 : ¬ ((fourAs.length : Int) ≤ 2) := by decide
  rw [chunkText, if_neg h4]
  exact hloop fuel []

/-- C3 counterexample: an add with 2 vectors and 1 chunk record does not
fail — it returns success and changes the stored document count from 1
to 2. -/
theorem addDocuments_mismatch_refuted :
    (addDocuments (createIndex initStore [[0, 0]] [docA]).1
        [[1, 1], [2, 2]] [docB]).2 = true ∧
    (getStats (addDocuments (createIndex initStore [[0, 0]] [docA]).1
        [[1, 1], [2, 2]] [docB]).1).num_documents = 2 ∧
    (getStats (createIndex initStore [[0, 0]] [docA]).1).num_documents =
      1 := by
  decide

/-- C3 amended: `add_documents` performs no vector/chunk count validation;
on a bound index, any batch whose vectors match the index dimension is
fully applied — all vectors appended, all chunk records appended — and the
call returns success, so `stats` counts the old documents plus every new
chunk record regardless of the vector count. -/
theorem addDocuments_no_count_check (s : VectorStore) (ix : FaissIndex)
    (vecs : List (List ℚ)) (docs : List Doc) (hix : s.index = some ix)
    (hdim : vecs.all (fun v => v.length == ix.dim) = true) :
    (addDocuments s vecs docs).2 = true ∧
    (getStats (addDocuments s vecs docs).1).num_documents =
      s.documents.length + docs.length ∧
    (addDocuments s vecs docs).1.index = some ⟨ix.dim, ix.rows ++ vecs⟩ := by
  obtain ⟨oix, sdocs, dim⟩ := s
  have hix2 : oix = some ix := hix
  subst hix2
  simp only [addDocuments]
  rw [if_pos hdim]
  refine ⟨rfl, ?_, rfl⟩
  simp [getStats]

/-- Witness for C3 at a concrete mismatched batch (2 vectors, 1 chunk). -/
theorem addDocuments_no_count_check_check :
    (addDocuments ⟨some ⟨2, [[0, 0]]⟩, [docA], some 2⟩
        [[1, 1], [2, 2]] [docB]).2 = true ∧
    (getStats (addDocuments ⟨some ⟨2, [[0, 0]]⟩, [docA], some 2⟩
        [[1, 1], [2, 2]] [docB]).1).num_documents =
      [docA].length + [docB].length ∧
    (addDocuments ⟨some ⟨2, [[0, 0]]⟩, [docA], some 2⟩
        [[1, 1], [2, 2]] [docB]).1.index =
      some ⟨2, [[0, 0]] ++ [[1, 1], [2, 2]]⟩ :=
  addDocuments_no_count_check ⟨some ⟨2, [[0, 0]]⟩, [docA], some 2⟩
    ⟨2, [[0, 0]]⟩ [[1, 1], [2, 2]] [docB] rfl (by decide)

/-- C4 counterexample: search on the empty store returns the plain empty
list — the very same value a successful search with k = 0 on a non-empty
store returns — not a distinct failure value. -/
theorem search_empty_not_distinct_refuted :
    searchVS initStore [1] 5 = [] ∧
    searchVS storeC [0, 0] 0 = [] ∧
    searchVS initStore [1] 5 = searchVS storeC [0, 0] 0 := by
  decide

/-- C4 amended: search on an index with no stored chunks returns the
ordinary empty list (the code only emits a UI warning); the return value
carries no failure marker distinct from a successful empty result. -/
theorem searchVS_empty_nil (s : VectorStore) (q : List ℚ) (k : Nat)
    (h : s.documents = []) : searchVS s q k = [] := by
  obtain ⟨oix, docs, dim⟩ := s
  have h2 : docs = [] := h
  subst h2
  cases oix with
  | none => rfl
  | some ix => rfl

/-- Witness for C4 at the fresh store. -/
theorem searchVS_empty_nil_check : searchVS initStore [1] 5 = [] :=
  searchVS_empty_nil initStore [1] 5 rfl

/-- C5 counterexample: for the empty string the function returns a
one-element list containing the empty chunk — not the empty sequence —
and that chunk is empty after trimming. -/
theorem chunkText_empty_input_refuted :
    chunkText 1 [] 5 2 = some (Except.ok [[]]) ∧
    ([[]] : List (List Char)) ≠ [] ∧
    strip ([] : List Char) = [] := by
  refine ⟨rfl, by simp, rfl⟩

/-- C5 amended: when the text is no longer than `chunk_size` (the empty
string included) the text itself is returned as the single chunk, with no
trimming and no emptiness check; chunks produced by the long-text loop
are however all non-empty after trimming. -/
theorem chunkText_trimming (text : List Char) (cs ov : Int) (fuel : Nat) :
    ((text.length : Int) ≤ cs →
      chunkText fuel text cs ov = some (Except.ok [text])) ∧
    (∀ res, cs < (text.length : Int) →
      chunkText fuel text cs ov = some (Except.ok res) →
      ∀ c ∈ res, strip c ≠ []) := by
  constructor
  · intro h
    rw [chunkText, if_pos h]
  · intro res hlt h
    rw [chunkText, if_neg (not_le.mpr hlt)] at h
    have hinv := chunkLoop_invar text cs ov
      (fun c => strip c = c ∧ c ≠ [])
      (fun s2 e2 _ _ hne => ⟨strip_idem _, hne⟩)
      fuel 0 [] res (by intro c hc; cases hc) h
    intro c hc
    obtain ⟨hsc, hcn⟩ := hinv c hc
    rw [hsc]
    exact hcn

/-- Witness for C5: the short-text branch on a two-letter text, and the
loop branch on a five-letter text whose three chunks all strip to
non-empty text. -/
theorem chunkText_trimming_check :
    chunkText 3 ['h', 'i'] 5 0 = some (Except.ok [['h', 'i']]) ∧
    ∀ c ∈ [['a', 'b'], ['c', 'd'], ['d']], strip c ≠ [] := by
  constructor
  · exact (chunkText_trimming ['h', 'i'] 5 0 3).1 (by decide)
  · exact (chunkText_trimming ['a', 'b', ' ', 'c', 'd'] 3 1 9).2
      [['a', 'b'], ['c', 'd'], ['d']] (by decide) rfl

/-- C6 counterexample: `chunk_size = 0` is not rejected up front — on the
empty string the call succeeds and returns the singleton empty chunk, and
on a one-letter text the run never finishes for any fuel (it hangs rather
than failing with any configuration error). -/
theorem chunkText_invalid_size_refuted :
    chunkText 1 [] 0 5 = some (Except.ok [[]]) ∧
    chunkText 20 ['a'] 0 0 = none := by
  exact ⟨rfl, rfl⟩

/-- C6 amended: the code never validates `chunk_size`.  With
`chunk_size = 0` the empty text is returned as a singleton empty chunk
(success, no error value), and on any non-empty text the loop makes no
progress, running forever. -/
theorem chunkText_no_size_validation (ov : Int) (fuel : Nat) :
    chunkText fuel [] 0 ov = some (Except.ok [[]]) ∧
    ∀ text : List Char, text ≠ [] → chunkText fuel text 0 0 = none := by
  constructor
  · rfl
  · intro text hne
    have h0 : 0 < text.length := List.length_pos.mpr hne
    have hlen : ¬ ((text.length : Int) ≤ 0) := by
      omega
    rw [chunkText, if_neg hlen]
    have hall : ∀ (m : Nat) (acc : List (List Char)),
        chunkLoop text 0 0 m 0 acc = none := by
      intro m
      induction m with
      | zero => intro acc; rfl
      | succ k ih =>
        intro acc
        rw [chunkLoop_zero_step text hne]
        exact ih acc
    exact hall fuel []

/-- Witness for C6 at overlap 5, fuel 7, and the one-letter text. -/
theorem chunkText_no_size_validation_check :
    chunkText 7 [] 0 5 = some (Except.ok [[]]) ∧
    chunkText 7 ['a'] 0 0 = none := by
  exact ⟨(chunkText_no_size_validation 5 7).1,
    (chunkText_no_size_validation 5 7).2 ['a'] (by decide)⟩

/-- C7: every chunk of a normally finished run with `chunk_size = S > 0`
has length at most `S + 100` (the code in fact guarantees `S + 1`: the
boundary scan can move the cut at most one character past the window). -/
theorem chunkText_chunk_bound (text : List Char) (cs ov : Int) (fuel : Nat)
    (res : List (List Char)) (hcs : 0 < cs)
    (h : chunkText fuel text cs ov = some (Except.ok res)) :
    ∀ c ∈ res, (c.length : Int) ≤ cs + 100 := by
  rw [chunkText] at h
  by_cases hle : (text.length : Int) ≤ cs
  · rw [if_pos hle] at h
    have hres : [text] = res := by cases h; rfl
    intro c hc
    rw [← hres] at hc
    rcases List.mem_singleton.mp hc with rfl
    omega
  · rw [if_neg hle] at h
    refine chunkLoop_invar text cs ov
      (fun c => (c.length : Int) ≤ cs + 100) ?_ fuel 0 [] res
      (by intro c hc; cases hc) h
    intro s2 e2 hb1 hb2 _
    have hdiv : 0 ≤ cs.fdiv 2 :=
      Int.fdiv_nonneg (le_of_lt hcs) (by norm_num)
    have hm : s2 + cs.fdiv 2 ≤ max (s2 + cs.fdiv 2) (s2 + cs - 100) :=
      le_max_left _ _
    have hs2e2 : s2 ≤ e2 := by
      rcases hb2 with h1 | h1 <;> omega
    have hlen2 := pySlice_length_le text s2 e2 hs2e2
    have hstrip : ((strip (pySlice text s2 e2)).length : Int) ≤
        ((pySlice text s2 e2).length : Int) := by
      exact_mod_cast strip_length_le _
    omega

/-- Witness for C7 at the short two-letter text with `chunk_size = 5`. -/
theorem chunkText_chunk_bound_check :
    ((['h', 'i'] : List Char).length : Int) ≤ (5 : Int) + 100 :=
  chunkText_chunk_bound ['h', 'i'] 5 0 3 [['h', 'i']] (by norm_num) rfl
    ['h', 'i'] (List.mem_singleton.mpr rfl)

/-- C8: every similarity score attached to a search result is
`1 / (1 + d)` for `d` the squared Euclidean distance from the query to
one of the stored rows; the transform is strictly decreasing on the
non-negative distances, its values lie in (0, 1], and squared distances
are always non-negative. -/
theorem search_similarity_formula (s : VectorStore) (q : List ℚ) (k : Nat) :
    (∀ r ∈ searchVS s q k, ∃ v ∈ rowsOf s, r.2 = similarity (sqDist q v)) ∧
    (∀ d1 d2 : ℚ, 0 ≤ d1 → d1 < d2 → similarity d2 < similarity d1) ∧
    (∀ d : ℚ, 0 ≤ d → 0 < similarity d ∧ similarity d ≤ 1) ∧
    (∀ u v : List ℚ, 0 ≤ sqDist u v) := by
  refine ⟨?_, ?_, ?_, ?_⟩
  · intro r hr
    obtain ⟨oix, docs, dim⟩ := s
    cases oix with
    | none => simp [searchVS] at hr
    | some ix =>
      simp only [searchVS] at hr
      split at hr
      · simp at hr
      · split at hr
        · simp at hr
        · rw [List.mem_filterMap] at hr
          obtain ⟨p, hp, hfp⟩ := hr
          have hp2 : p ∈ distPairs q ix.rows :=
            (List.perm_insertionSort distLe _).subset
              (List.take_subset _ _ hp)
          simp only [distPairs, List.mem_map] at hp2
          obtain ⟨⟨i, v⟩, hiv, rfl⟩ := hp2
          have hv : v ∈ ix.rows := idxFrom_snd_mem 0 ix.rows i v hiv
          split at hfp
          · injection hfp with hfp2
            subst hfp2
            exact ⟨v, hv, rfl⟩
          · cases hfp
  · intro d1 d2 h0 hlt
    unfold similarity
    exact one_div_lt_one_div_of_lt (by linarith) (by linarith)
  · intro d h0
    unfold similarity
    constructor
    · exact div_pos one_pos (by linarith)
    · rw [div_le_one (by linarith)]
      linarith
  · intro u v
    unfold sqDist
    apply List.sum_nonneg
    intro x hx
    rw [List.mem_map] at hx
    obtain ⟨p, _, rfl⟩ := hx
    positivity

/-- Witness for C8: the single search result of the one-row store carries
exactly the score the formula prescribes, and the transform behaves as
stated at distances 0, 1 and 2. -/
theorem search_similarity_formula_check :
    (∃ v ∈ rowsOf store1,
      ((docC, similarity (sqDist [1] [1])) : Doc × ℚ).2 =
        similarity (sqDist [1] v)) ∧
    similarity 1 < similarity 0 ∧
    (0 < similarity 2 ∧ similarity 2 ≤ 1) ∧
    (0 : ℚ) ≤ sqDist [1, 2] [3, 4] :=
  ⟨(search_similarity_formula store1 [1] 1).1
      (docC, similarity (sqDist [1] [1]))
      (by
        rw [show searchVS store1 [1] 1 =
          [(docC, similarity (sqDist [1] [1]))] from rfl]
        exact List.mem_singleton.mpr rfl),
    (search_similarity_formula store1 [1] 1).2.1 0 1 le_rfl (by norm_num),
    (search_similarity_formula store1 [1] 1).2.2.1 2 (by norm_num),
    (search_similarity_formula store1 [1] 1).2.2.2 [1, 2] [3, 4]⟩

/-- C9 counterexample: for a chunk whose url is empty, the code's context
block omits the parenthesised url, so it differs from the format the
claim prescribes; the block actually included is the code's one. -/
theorem assembler_format_refuted :
    formatDoc docU ≠ specFormatDoc docU ∧
    buildContextParts [docU] 100 0 = [formatDoc docU] := by
  constructor
  · decide
  · rfl

/-- C9 amended: the assembler includes a prefix of the results in order,
formatting each as Source: title, a parenthesised url only when the url
is non-empty, then Content: content; it stops at the first block that
would push the accumulated length past `max_chars`, so the total length
of the included blocks never exceeds `max_chars`. -/
theorem assembler_greedy_prefix (docs : List Doc) (maxChars : Int)
    (h : 0 ≤ maxChars) :
    ∃ n, buildContextParts docs maxChars 0 = (docs.take n).map formatDoc ∧
      (sumLen (buildContextParts docs maxChars 0) : Int) ≤ maxChars ∧
      n ≤ docs.length ∧
      (n < docs.length →
        (sumLen (buildContextParts docs maxChars 0) : Int) +
          ((formatDoc (docs.getD n default)).length : Int) > maxChars) := by
  obtain ⟨n, he, hb, hn, hs⟩ := buildContextParts_spec docs maxChars 0
  refine ⟨n, he, ?_, hn, ?_⟩
  · have hm : max maxChars ((0 : Nat) : Int) = maxChars := by
      rw [max_eq_left]
      simpa using h
    rw [hm] at hb
    simpa using hb
  · intro hlt
    have hstop := hs hlt
    simpa using hstop

/-- Witness for C9 on a single document with budget 100. -/
theorem assembler_greedy_prefix_check :
    ∃ n, buildContextParts [docA] 100 0 = ([docA].take n).map formatDoc ∧
      (sumLen (buildContextParts [docA] 100 0) : Int) ≤ 100 ∧
      n ≤ [docA].length ∧
      (n < [docA].length →
        (sumLen (buildContextParts [docA] 100 0) : Int) +
          ((formatDoc ([docA].getD n default)).length : Int) > 100) :=
  assembler_greedy_prefix [docA] 100 (by norm_num)

/-- C10: adding an empty batch (no vectors, no chunk records) to the
empty, unbound store returns a failure value (`False`) and leaves the
store entirely unchanged: no dimension adopted, no documents stored, the
index still unbound. -/
theorem add_empty_batch_rejected (s : VectorStore) (h1 : s.index = none)
    (h2 : s.documents = []) (h3 : s.dimension = none) :
    addDocuments s [] [] = (s, false) ∧
    (addDocuments s [] []).1.index = none ∧
    (addDocuments s [] []).1.documents = [] ∧
    (addDocuments s [] []).1.dimension = none := by
  obtain ⟨oix, docs, dim⟩ := s
  have h1b : oix = none := h1
  have h2b : docs = [] := h2
  have h3b : dim = none := h3
  subst h1b
  subst h2b
  subst h3b
  exact ⟨rfl, rfl, rfl, rfl⟩

/-- Witness for C10 at the fresh store. -/
theorem add_empty_batch_rejected_check :
    addDocuments initStore [] [] = (initStore, false) ∧
    (addDocuments initStore [] []).1.index = none ∧
    (addDocuments initStore [] []).1.documents = [] ∧
    (addDocuments initStore [] []).1.dimension = none :=
  add_empty_batch_rejected initStore rfl rfl rfl

end DeepResearch
